import Mathlib

/-!
Verification development for the backtester repository.

The embedded code is `src/core/backtest_engine.py` (class `BacktestEngine`:
`run_backtest`, `get_trade_details`, `_calculate_statistics`,
`_calculate_max_drawdown`) together with the position-sizing method of the
strategy base class (`BaseStrategy.get_position_size` and its
`PositionSizingMethod` enum, from
`src/.history/strategies/base_strategy_20241122224034.py`, the snapshot the
live code imports as `strategies.base_strategy`).

Modelling conventions:
- Python floats are modelled as rationals; the single place where the code can
  produce `float('inf')` (the `profit_factor` field) is modelled with the
  two-constructor type `StatVal`.
- Timestamps are modelled as integers counting days, so the Python
  `(exit_date - entry_date).days` is plain integer subtraction.
- `strategy.generate_signals(data)` and the indicator columns the engine adds
  (Returns, Volatility, RSI, SMA_20, SMA_50, ATR) are outside the core being
  verified: a `Row` models one row of the resulting dataframe, carrying the
  fields the trading loop reads (`Close`, `Signal`, the index timestamp) plus
  an opaque `Metrics` record for the columns that are only copied verbatim
  into `entry_metrics` / `exit_metrics`.
- A Python dict that may lack the exit keys is modelled by `Option` fields on
  `Trade`; `trades[-1].update(...)` is `updateLast`.
- The engine's `trade_details` defaultdict is modelled by its observable
  behaviour (the code only reads it through `.get(key, [])` and writes by
  plain assignment): a total function from keys to ledgers, initially
  constant `[]`.
-/

/-- Indicator and OHLCV columns that the engine reads from a dataframe row
only to copy them into a trade's `entry_metrics` / `exit_metrics` dict
(Volume, Volatility, RSI, SMA_20, SMA_50, ATR, High, Low, Open). No claim
inspects them, so they are carried opaquely. -/
structure Metrics where
  volume : ℚ
  volatility : ℚ
  rsi : ℚ
  sma_20 : ℚ
  sma_50 : ℚ
  atr : ℚ
  high : ℚ
  low : ℚ
  open_ : ℚ
  deriving Repr, DecidableEq

/-- One row of the dataframe the trading loop iterates over: the index
timestamp (in days), the Close price, the Signal column produced by
`strategy.generate_signals`, and the copied-only columns. -/
structure Row where
  date : ℤ
  close : ℚ
  signal : ℚ
  metrics : Metrics
  deriving Repr, DecidableEq

/-- One entry of the trade ledger, the Python dict built in `run_backtest`.
The exit keys are absent while the trade is open, modelled by `Option`;
`profit` is 0 at entry and overwritten on close. -/
structure Trade where
  entry_date : ℤ
  entry_price : ℚ
  position : ℚ
  profit : ℚ
  entry_metrics : Metrics
  exit_date : Option ℤ
  exit_price : Option ℚ
  exit_metrics : Option Metrics
  deriving Repr, DecidableEq

/-- Position-sizing methods of `BaseStrategy` (enum `PositionSizingMethod`). -/
inductive PositionSizingMethod where
  | contractSize
  | equityPercent
  | shares
  | dollarAmount
  deriving Repr, DecidableEq

/-- The data of a strategy object that the engine reads: its class name
(`strategy.__class__.__name__`), and the position-sizing state of
`BaseStrategy.__init__` (`capital` is initialised to the strategy's
`initial_capital` and, as the whole repository never reassigns it, keeps that
value for the lifetime of the object). -/
structure BaseStrategy where
  name : String
  initial_capital : ℚ
  capital : ℚ
  position_sizing_method : PositionSizingMethod
  position_size_value : ℚ
  deriving Repr, DecidableEq

/-- BaseStrategy.get_position_size: sizes a position from the selected method,
the strategy's stored `capital` attribute and the given price. The Python
trailing `return 0` is unreachable because the four enum cases are total. -/
def BaseStrategy.get_position_size (s : BaseStrategy) (price : ℚ) : ℚ :=
  match s.position_sizing_method with
  | .contractSize => s.position_size_value
  | .equityPercent => s.capital * s.position_size_value / 100 / price
  | .shares => s.position_size_value
  | .dollarAmount => s.position_size_value / price

/-- Local state of the `run_backtest` loop: `position`, `capital`, the trade
list, and `entry_price`. -/
structure LoopState where
  position : ℚ
  capital : ℚ
  trades : List Trade
  entry_price : ℚ
  deriving Repr, DecidableEq

/-- Applies a function to the last element of a list, the model of Python's
`trades[-1].update(...)` (a no-op on an empty list, a case the engine never
reaches because it closes only while a position is open). -/
def updateLast {α : Type} (f : α → α) : List α → List α
  | [] => []
  | [t] => [f t]
  | t :: ts => t :: updateLast f ts

/-- The open trade dict appended on a buy signal. -/
def openTrade (row : Row) (pos : ℚ) : Trade :=
  { entry_date := row.date
    entry_price := row.close
    position := pos
    profit := 0
    entry_metrics := row.metrics
    exit_date := none
    exit_price := none
    exit_metrics := none }

/-- Writes the exit keys and the realized profit into a trade dict, as the
`trades[-1].update({...})` calls of both close sites do. -/
def setExit (date : ℤ) (price : ℚ) (tp : ℚ) (m : Metrics) (t : Trade) : Trade :=
  { t with
    exit_date := some date
    exit_price := some price
    profit := tp
    exit_metrics := some m }

/-- One iteration of the `for idx, (index, row) in enumerate(df.iterrows())`
loop of `run_backtest` (the progress signal emission is GUI-only and has no
effect on the result). -/
def processRow (strategy : BaseStrategy) (st : LoopState) (row : Row) : LoopState :=
  if row.signal = 1 ∧ st.position = 0 then
    let pos := strategy.get_position_size row.close
    { position := pos
      capital := st.capital
      trades := st.trades ++ [openTrade row pos]
      entry_price := row.close }
  else if row.signal = -1 ∧ st.position ≠ 0 then
    let exit_price := row.close
    let trade_profit := (exit_price - st.entry_price) * st.position
    { position := 0
      capital := st.capital + trade_profit
      trades := updateLast (setExit row.date exit_price trade_profit row.metrics) st.trades
      entry_price := st.entry_price }
  else
    st

/-- The trade-simulation part of `run_backtest`: the forward loop over the
rows followed by the `if position != 0:` force-close block, which closes at
the last row's Close (`df.iloc[-1]`); returns the trade list and the final
capital. On an empty dataframe Python never reaches `df.iloc[-1]` because
`position` is still 0, matching the `getLast?` match. -/
def simulate (strategy : BaseStrategy) (rows : List Row) (initial_capital : ℚ) :
    List Trade × ℚ :=
  let final := rows.foldl (processRow strategy) ⟨0, initial_capital, [], 0⟩
  if final.position ≠ 0 then
    match rows.getLast? with
    | some last_row =>
        let exit_price := last_row.close
        let trade_profit := (exit_price - final.entry_price) * final.position
        (updateLast (setExit last_row.date exit_price trade_profit last_row.metrics)
            final.trades,
          final.capital + trade_profit)
    | none => (final.trades, final.capital)
  else
    (final.trades, final.capital)

/-- Value of a Python float expression that is either an exact number or
`float('inf')` — the only place the engine can produce infinity is the
`profit_factor` field of the statistics dict. -/
inductive StatVal where
  | fin (q : ℚ)
  | inf
  deriving Repr, DecidableEq

/-- The statistics dict returned by `_calculate_statistics`. -/
structure Report where
  net_profit : ℚ
  total_trades : ℕ
  win_rate : ℚ
  profit_factor : StatVal
  max_drawdown : ℚ
  avg_trade : ℚ
  avg_bars_in_trade : ℚ
  deriving Repr, DecidableEq

/-- The all-zero dict returned by both early-return branches of
`_calculate_statistics`. -/
def zeroReport : Report :=
  { net_profit := 0
    total_trades := 0
    win_rate := 0
    profit_factor := .fin 0
    max_drawdown := 0
    avg_trade := 0
    avg_bars_in_trade := 0 }

/-- Membership test `'exit_date' in t` on a trade dict. -/
def Trade.isClosed (t : Trade) : Bool :=
  t.exit_date.isSome

/-- The filter `[t for t in trades if 'exit_date' in t]`. -/
def closedOf (trades : List Trade) : List Trade :=
  trades.filter Trade.isClosed

/-- The filter `[t for t in closed_trades if t['profit'] > 0]`. -/
def winningOf (closed : List Trade) : List Trade :=
  closed.filter (fun t => 0 < t.profit)

/-- The filter `[t for t in closed_trades if t['profit'] <= 0]`. -/
def losingOf (closed : List Trade) : List Trade :=
  closed.filter (fun t => t.profit ≤ 0)

/-- The line `gross_profit = sum(t['profit'] for t in winning_trades)`. -/
def grossProfitOf (closed : List Trade) : ℚ :=
  ((winningOf closed).map Trade.profit).sum

/-- The line `gross_loss = abs(sum(...)) if losing_trades else 1`. -/
def grossLossOf (closed : List Trade) : ℚ :=
  if losingOf closed ≠ [] then |((losingOf closed).map Trade.profit).sum| else 1

/-- The equity-curve construction of `_calculate_max_drawdown`: running totals
of trade profits starting from the initial capital, one point per trade. -/
def equityCurveFrom (current_equity : ℚ) (profits : List ℚ) : List ℚ :=
  match profits with
  | [] => []
  | p :: rest => (current_equity + p) :: equityCurveFrom (current_equity + p) rest

/-- The second loop of `_calculate_max_drawdown`: walk the equity points
keeping the running peak and the running maximum drawdown. -/
def ddWalk (peak max_drawdown : ℚ) : List ℚ → ℚ
  | [] => max_drawdown
  | equity :: rest =>
      let peak' := if peak < equity then equity else peak
      let drawdown := (peak' - equity) / peak' * 100
      ddWalk peak' (max max_drawdown drawdown) rest

/-- BacktestEngine._calculate_max_drawdown, with the engine's
`self.initial_capital` passed explicitly. -/
def calculate_max_drawdown (initial_capital : ℚ) (trades : List Trade) : ℚ :=
  if trades = [] then 0
  else
    ddWalk initial_capital 0 (equityCurveFrom initial_capital (trades.map Trade.profit))

/-- BacktestEngine._calculate_statistics, with the engine's
`self.initial_capital` passed explicitly. The Python locals `closed_trades`,
`winning_trades`, `gross_profit`, `gross_loss` are the named helper
definitions above, written out at each use; the inner conditionals on
`closed_trades` are kept although that list is non-empty on that path, to
mirror the Python expression for expression. -/
def calculate_statistics (initial_capital : ℚ) (trades : List Trade)
    (final_capital : ℚ) : Report :=
  if trades = [] then zeroReport
  else
    if closedOf trades = [] then zeroReport
    else
      { net_profit := final_capital - initial_capital
        total_trades := (closedOf trades).length
        win_rate :=
          if closedOf trades ≠ [] then
            ((winningOf (closedOf trades)).length : ℚ) /
              ((closedOf trades).length : ℚ) * 100
          else 0
        profit_factor :=
          if grossLossOf (closedOf trades) ≠ 0 then
            .fin (grossProfitOf (closedOf trades) / grossLossOf (closedOf trades))
          else .inf
        max_drawdown := calculate_max_drawdown initial_capital (closedOf trades)
        avg_trade :=
          if closedOf trades ≠ [] then
            (final_capital - initial_capital) / ((closedOf trades).length : ℚ)
          else 0
        avg_bars_in_trade :=
          if closedOf trades ≠ [] then
            (((closedOf trades).map
                (fun t => ((t.exit_date.getD 0 - t.entry_date : ℤ) : ℚ))).sum) /
              ((closedOf trades).length : ℚ)
          else 0 }

/-- State of a `BacktestEngine` object: the constructor argument
`initial_capital` and the `trade_details` store, modelled by its observable
lookup behaviour (`defaultdict(list)` read only via `.get(key, [])`), as a
total function from (ticker, strategy-class-name) keys to ledgers. The
`price_data` dict is carried the same way. -/
structure BacktestEngine where
  initial_capital : ℚ
  trade_details : String × String → List Trade
  price_data : String → Option (List Row)

/-- BacktestEngine.__init__. -/
def BacktestEngine.mk0 (initial_capital : ℚ) : BacktestEngine :=
  { initial_capital := initial_capital
    trade_details := fun _ => []
    price_data := fun _ => none }

/-- BacktestEngine.run_backtest: stores the price data, runs the simulation
loop (the indicator columns are already part of `rows`, see the header note),
stores the trade list under `(ticker, strategy.__class__.__name__)` and
returns the statistics dict; the mutated engine is returned explicitly. -/
def BacktestEngine.run_backtest (e : BacktestEngine) (rows : List Row)
    (strategy : BaseStrategy) (ticker : String) : BacktestEngine × Report :=
  let result := simulate strategy rows e.initial_capital
  let e' : BacktestEngine :=
    { e with
      price_data := Function.update e.price_data ticker (some rows)
      trade_details :=
        Function.update e.trade_details (ticker, strategy.name) result.1 }
  (e', calculate_statistics e.initial_capital result.1 result.2)

/-- BacktestEngine.get_trade_details: `self.trade_details.get((ticker,
strategy_name), [])` (the debug prints have no effect on the result). -/
def BacktestEngine.get_trade_details (e : BacktestEngine) (ticker : String)
    (strategy_name : String) : List Trade :=
  e.trade_details (ticker, strategy_name)

/-- Modelled from the spec: the contract of §4.1/§6 reads the position sizer
as a two-argument function `position_sizer(current_capital, price)`, i.e. the
sizing formulas of `BaseStrategy.get_position_size` evaluated at an explicitly
supplied capital instead of the strategy object's stored `capital` attribute.
Used only to compare the spec's sizing against the code's. -/
def spec_position_sizer (s : BaseStrategy) (current_capital price : ℚ) : ℚ :=
  BaseStrategy.get_position_size { s with capital := current_capital } price

/-- The entry-side fields of a trade dict, the data that claim C8 asserts is
never overwritten once written. -/
def entryData (t : Trade) : ℤ × ℚ × ℚ × Metrics :=
  (t.entry_date, t.entry_price, t.position, t.entry_metrics)

/-! Concrete fixtures used by witnesses and counterexamples. -/

/-- Metrics payload with all indicator columns at 0 (their values never
influence the verified fields). -/
def mZero : Metrics := ⟨0, 0, 0, 0, 0, 0, 0, 0, 0⟩

/-- A dataframe row with the given date, close and signal. -/
def mkRow (d : ℤ) (c s : ℚ) : Row := ⟨d, c, s, mZero⟩

/-- A strategy using the default sizing of `BaseStrategy.__init__`
(100% of equity), with capital 1000. -/
def stratPct : BaseStrategy := ⟨"RsiStrategy", 1000, 1000, .equityPercent, 100⟩

/-- A strategy whose contract-size sizing is 0, a value the sizing contract
(finite, non-negative) permits. -/
def stratZeroSize : BaseStrategy := ⟨"ZeroSize", 1000, 1000, .contractSize, 0⟩

/-- A strategy sizing a fixed 5 shares at every price. -/
def stratShares : BaseStrategy := ⟨"MacdStrategy", 1000, 1000, .shares, 5⟩

/-- Two buy-sell round trips: enter at 100, exit at 110 (profit 100 on 10
shares), enter again at 100, exit at 105. -/
def rowsRoundTrips : List Row :=
  [mkRow 0 100 1, mkRow 1 110 (-1), mkRow 2 100 1, mkRow 3 105 (-1)]

/-- The first round trip alone. -/
def rowsFirstLeg : List Row := [mkRow 0 100 1, mkRow 1 110 (-1)]

/-- A closed break-even trade: entered and exited at 100, profit exactly 0. -/
def tradeBreakEven : Trade := ⟨0, 100, 10, 0, mZero, some 1, some 100, some mZero⟩

/-- A closed trade with the given profit (entry day 0, exit day 1). -/
def closedWith (p : ℚ) : Trade := ⟨0, 100, 10, p, mZero, some 1, some 110, some mZero⟩

/-- Scenario D ledger: two winning trades of +50 and +100. -/
def ledgerD : List Trade := [closedWith 50, closedWith 100]

/-- Scenario E ledger: profits 100, -200, 300, so the equity curve from 1000
is 1100, 900, 1200. -/
def ledgerE : List Trade := [closedWith 100, closedWith (-200), closedWith 300]

/-- Default trade used with `List.getD` in concrete witnesses. -/
def tradeDefault : Trade := ⟨0, 0, 0, 0, mZero, none, none, none⟩

/-- A ledger holding a single still-open trade. -/
def openOnlyLedger : List Trade := [⟨0, 100, 10, 0, mZero, none, none, none⟩]

/-- An Enter at close 100 followed by a Hold, so the run ends with an open
position force-closed at the final close 120. -/
def rowsForceClose : List Row := [mkRow 0 100 1, mkRow 1 120 0]

/-- Three Hold bars: a signal stream without any Enter. -/
def rowsAllHold : List Row := [mkRow 0 100 0, mkRow 1 90 0, mkRow 2 95 0]

/-- Invariant maintained by `processRow`: the loop capital is the initial
capital plus the sum of recorded profits, every closed trade's profit obeys
the close formula, every trade was sized by `get_position_size` at its entry
price, and while a position is open the last ledger entry is the matching
open trade. -/
def SimInv (strat : BaseStrategy) (c : ℚ) (st : LoopState) : Prop :=
  st.capital = c + (st.trades.map Trade.profit).sum ∧
  (∀ t ∈ st.trades, ∀ p, t.exit_price = some p →
    t.profit = (p - t.entry_price) * t.position) ∧
  (∀ t ∈ st.trades, t.position = strat.get_position_size t.entry_price) ∧
  (st.position ≠ 0 → ∃ pre lastT, st.trades = pre ++ [lastT] ∧
    lastT.entry_price = st.entry_price ∧ lastT.position = st.position ∧
    lastT.profit = 0 ∧ lastT.exit_price = none)

/-- Closed-ledger invariant of the loop (valid when the sizer never returns
0): all trades but possibly the last carry their exit fields, and all of them
do whenever the position is flat. -/
def ClosedInv (st : LoopState) : Prop :=
  (∀ t ∈ st.trades.dropLast, t.exit_date.isSome ∧ t.exit_price.isSome) ∧
  (st.position = 0 → ∀ t ∈ st.trades, t.exit_date.isSome ∧ t.exit_price.isSome)

/-! List lemmas about `updateLast`, and a fold-invariant principle. -/

lemma updateLast_nil {α : Type} (f : α → α) : updateLast f [] = [] := rfl

lemma updateLast_cons₂ {α : Type} (f : α → α) (a b : α) (l : List α) :
    updateLast f (a :: b :: l) = a :: updateLast f (b :: l) := rfl

lemma updateLast_concat {α : Type} (f : α → α) (l : List α) (x : α) :
    updateLast f (l ++ [x]) = l ++ [f x] := by
  induction l with
  | nil => rfl
  | cons a l ih =>
      cases l with
      | nil => rfl
      | cons b l' =>
          have h : (a :: b :: l') ++ [x] = a :: ((b :: l') ++ [x]) := rfl
          rw [h, List.cons_append b l' [x], updateLast_cons₂]
          rw [← List.cons_append b l' [x], ih]
          rfl

lemma map_updateLast {α β : Type} (f : α → α) (g : α → β)
    (hg : ∀ x, g (f x) = g x) : ∀ l : List α, (updateLast f l).map g = l.map g := by
  intro l
  induction l with
  | nil => rfl
  | cons a l ih =>
      cases l with
      | nil => simp [updateLast, hg]
      | cons b l' =>
          rw [updateLast_cons₂, List.map_cons, ih, List.map_cons]
          rfl

lemma mem_updateLast_of_dropLast {α : Type} (f : α → α) (l : List α)
    (P : α → Prop) (hf : ∀ x, P (f x)) (hl : ∀ t ∈ l.dropLast, P t) :
    ∀ t ∈ updateLast f l, P t := by
  rcases List.eq_nil_or_concat l with rfl | ⟨l', x, rfl⟩
  · intro t ht; simp [updateLast_nil] at ht
  · rw [List.concat_eq_append] at hl ⊢
    rw [updateLast_concat]
    intro t ht
    rcases List.mem_append.mp ht with h | h
    · exact hl t (by simpa [List.dropLast_concat] using h)
    · rcases List.mem_singleton.mp h with rfl
      exact hf x

lemma foldl_preserves {α β : Type} (f : β → α → β) (P : β → Prop)
    (h : ∀ b a, P b → P (f b a)) : ∀ (l : List α) (b : β), P b → P (l.foldl f b) := by
  intro l
  induction l with
  | nil => intro b hb; exact hb
  | cons a l ih => intro b hb; exact ih (f b a) (h b a hb)

/-! Invariants of the trading loop. -/

lemma simInv_init (strat : BaseStrategy) (c : ℚ) :
    SimInv strat c ⟨0, c, [], 0⟩ := by
  refine ⟨by simp, by simp, by simp, fun h => absurd rfl h⟩

lemma processRow_enter (strat : BaseStrategy) (st : LoopState) (row : Row)
    (h : row.signal = 1 ∧ st.position = 0) :
    processRow strat st row =
      { position := strat.get_position_size row.close
        capital := st.capital
        trades := st.trades ++ [openTrade row (strat.get_position_size row.close)]
        entry_price := row.close } := by
  unfold processRow
  rw [if_pos h]

lemma processRow_exit (strat : BaseStrategy) (st : LoopState) (row : Row)
    (h1 : ¬(row.signal = 1 ∧ st.position = 0))
    (h2 : row.signal = -1 ∧ st.position ≠ 0) :
    processRow strat st row =
      { position := 0
        capital := st.capital + (row.close - st.entry_price) * st.position
        trades := updateLast
          (setExit row.date row.close ((row.close - st.entry_price) * st.position)
            row.metrics) st.trades
        entry_price := st.entry_price } := by
  unfold processRow
  rw [if_neg h1, if_pos h2]

lemma processRow_skip (strat : BaseStrategy) (st : LoopState) (row : Row)
    (h1 : ¬(row.signal = 1 ∧ st.position = 0))
    (h2 : ¬(row.signal = -1 ∧ st.position ≠ 0)) :
    processRow strat st row = st := by
  unfold processRow
  rw [if_neg h1, if_neg h2]

lemma simInv_step (strat : BaseStrategy) (c : ℚ) (st : LoopState) (row : Row)
    (h : SimInv strat c st) : SimInv strat c (processRow strat st row) := by
  obtain ⟨hcap, hprofit, hsize, hopen⟩ := h
  by_cases h1 : row.signal = 1 ∧ st.position = 0
  · rw [processRow_enter strat st row h1]
    refine ⟨?_, ?_, ?_, ?_⟩
    · simp [openTrade, hcap]
    · intro t ht p hp
      rcases List.mem_append.mp ht with hmem | hmem
      · exact hprofit t hmem p hp
      · rcases List.mem_singleton.mp hmem with rfl
        simp [openTrade] at hp
    · intro t ht
      rcases List.mem_append.mp ht with hmem | hmem
      · exact hsize t hmem
      · rcases List.mem_singleton.mp hmem with rfl
        simp [openTrade]
    · intro _
      exact ⟨st.trades, openTrade row (strat.get_position_size row.close),
        rfl, rfl, rfl, rfl, rfl⟩
  · by_cases h2 : row.signal = -1 ∧ st.position ≠ 0
    · rw [processRow_exit strat st row h1 h2]
      obtain ⟨pre, lastT, htr, hep, hpos, hpr0, _⟩ := hopen h2.2
      have hupd : updateLast
          (setExit row.date row.close ((row.close - st.entry_price) * st.position)
            row.metrics) st.trades =
          pre ++ [setExit row.date row.close
            ((row.close - st.entry_price) * st.position) row.metrics lastT] := by
        rw [htr, updateLast_concat]
      refine ⟨?_, ?_, ?_, ?_⟩
      · show st.capital + (row.close - st.entry_price) * st.position =
          c + ((updateLast _ st.trades).map Trade.profit).sum
        rw [hupd, hcap, htr]
        simp [setExit, hpr0]
        ring
      · intro t ht p hp
        simp only [hupd] at ht
        rcases List.mem_append.mp ht with hmem | hmem
        · exact hprofit t (htr ▸ List.mem_append.mpr (Or.inl hmem)) p hp
        · rcases List.mem_singleton.mp hmem with rfl
          simp only [setExit, Option.some.injEq] at hp
          subst hp
          simp [setExit, hep, hpos]
      · intro t ht
        simp only [hupd] at ht
        rcases List.mem_append.mp ht with hmem | hmem
        · exact hsize t (htr ▸ List.mem_append.mpr (Or.inl hmem))
        · rcases List.mem_singleton.mp hmem with rfl
          have hl := hsize lastT
            (htr ▸ List.mem_append.mpr (Or.inr (List.mem_singleton.mpr rfl)))
          simpa [setExit] using hl
      · intro hne
        exact absurd rfl hne
    · rw [processRow_skip strat st row h1 h2]
      exact ⟨hcap, hprofit, hsize, hopen⟩

lemma simInv_foldl (strat : BaseStrategy) (c : ℚ) (rows : List Row) :
    SimInv strat c (rows.foldl (processRow strat) ⟨0, c, [], 0⟩) :=
  foldl_preserves _ _ (fun st row h => simInv_step strat c st row h) rows _
    (simInv_init strat c)

/-- Consequences of the loop invariant carried through the end-of-series
force-close: the final capital is the initial capital plus the sum of the
ledger's profits, every closed trade's profit obeys the close formula, and
every trade was sized at its own entry price. -/
lemma simulate_inv (strat : BaseStrategy) (rows : List Row) (c : ℚ) :
    (simulate strat rows c).2 =
      c + (((simulate strat rows c).1).map Trade.profit).sum ∧
    (∀ t ∈ (simulate strat rows c).1, ∀ p, t.exit_price = some p →
      t.profit = (p - t.entry_price) * t.position) ∧
    (∀ t ∈ (simulate strat rows c).1,
      t.position = strat.get_position_size t.entry_price) := by
  obtain ⟨hcap, hprofit, hsize, hopen⟩ := simInv_foldl strat c rows
  set final := rows.foldl (processRow strat) ⟨0, c, [], 0⟩ with hfinal
  unfold simulate
  rw [← hfinal]
  by_cases hp : final.position ≠ 0
  · rw [if_pos hp]
    obtain ⟨pre, lastT, htr, hep, hpos, hpr0, _⟩ := hopen hp
    cases hlast : rows.getLast? with
    | none =>
        exfalso
        rw [List.getLast?_eq_none_iff] at hlast
        subst hlast
        exact hp rfl
    | some last_row =>
        have hupd : updateLast
            (setExit last_row.date last_row.close
              ((last_row.close - final.entry_price) * final.position)
              last_row.metrics) final.trades =
            pre ++ [setExit last_row.date last_row.close
              ((last_row.close - final.entry_price) * final.position)
              last_row.metrics lastT] := by
          rw [htr, updateLast_concat]
        refine ⟨?_, ?_, ?_⟩
        · show final.capital + (last_row.close - final.entry_price) * final.position =
            c + ((updateLast _ final.trades).map Trade.profit).sum
          rw [hupd, hcap, htr]
          simp [setExit, hpr0]
          ring
        · intro t ht p hq
          simp only [hupd] at ht
          rcases List.mem_append.mp ht with hmem | hmem
          · exact hprofit t (htr ▸ List.mem_append.mpr (Or.inl hmem)) p hq
          · rcases List.mem_singleton.mp hmem with rfl
            simp only [setExit, Option.some.injEq] at hq
            subst hq
            simp [setExit, hep, hpos]
        · intro t ht
          simp only [hupd] at ht
          rcases List.mem_append.mp ht with hmem | hmem
          · exact hsize t (htr ▸ List.mem_append.mpr (Or.inl hmem))
          · rcases List.mem_singleton.mp hmem with rfl
            have hl := hsize lastT
              (htr ▸ List.mem_append.mpr (Or.inr (List.mem_singleton.mpr rfl)))
            simpa [setExit] using hl
  · rw [if_neg hp]
    exact ⟨hcap, hprofit, hsize⟩

lemma closedInv_step (strat : BaseStrategy) (st : LoopState) (row : Row)
    (hsz : ∀ p, strat.get_position_size p ≠ 0)
    (h : ClosedInv st) : ClosedInv (processRow strat st row) := by
  obtain ⟨hdrop, hflat⟩ := h
  by_cases h1 : row.signal = 1 ∧ st.position = 0
  · rw [processRow_enter strat st row h1]
    constructor
    · intro t ht
      rw [List.dropLast_concat] at ht
      exact hflat h1.2 t ht
    · intro h0
      exact absurd h0 (hsz row.close)
  · by_cases h2 : row.signal = -1 ∧ st.position ≠ 0
    · rw [processRow_exit strat st row h1 h2]
      have hall : ∀ t ∈ updateLast
          (setExit row.date row.close ((row.close - st.entry_price) * st.position)
            row.metrics) st.trades, t.exit_date.isSome ∧ t.exit_price.isSome := by
        refine mem_updateLast_of_dropLast _ _ _ (fun x => ?_) hdrop
        simp [setExit]
      constructor
      · intro t ht
        exact hall t (List.dropLast_subset _ ht)
      · intro _
        exact hall
    · rw [processRow_skip strat st row h1 h2]
      exact ⟨hdrop, hflat⟩

lemma closedInv_simulate (strat : BaseStrategy) (rows : List Row) (c : ℚ)
    (hsz : ∀ p, strat.get_position_size p ≠ 0) :
    ∀ t ∈ (simulate strat rows c).1, t.exit_date.isSome ∧ t.exit_price.isSome := by
  have hinv : ClosedInv (rows.foldl (processRow strat) ⟨0, c, [], 0⟩) := by
    refine foldl_preserves _ _ (fun st row h => closedInv_step strat st row hsz h)
      rows _ ?_
    exact ⟨by simp, by simp⟩
  obtain ⟨hdrop, hflat⟩ := hinv
  set final := rows.foldl (processRow strat) ⟨0, c, [], 0⟩ with hfinal
  unfold simulate
  rw [← hfinal]
  by_cases hp : final.position ≠ 0
  · rw [if_pos hp]
    cases hlast : rows.getLast? with
    | none =>
        exfalso
        rw [List.getLast?_eq_none_iff] at hlast
        subst hlast
        exact hp rfl
    | some last_row =>
        refine mem_updateLast_of_dropLast _ _ _ (fun x => ?_) hdrop
        simp [setExit]
  · rw [if_neg hp]
    exact hflat (by simpa using hp)

/-! Lemmas about the drawdown walk. -/

lemma ddWalk_cons (peak m e : ℚ) (rest : List ℚ) :
    ddWalk peak m (e :: rest) =
      ddWalk (if peak < e then e else peak)
        (max m (((if peak < e then e else peak) - e) /
          (if peak < e then e else peak) * 100)) rest := rfl

lemma peak_step_pos {peak e : ℚ} (hpk : 0 < peak) :
    0 < if peak < e then e else peak := by
  by_cases h : peak < e
  · rw [if_pos h]; linarith
  · rw [if_neg h]; exact hpk

lemma peak_step_ge {peak e : ℚ} : e ≤ if peak < e then e else peak := by
  by_cases h : peak < e
  · rw [if_pos h]
  · rw [if_neg h]; linarith [not_lt.mp h]

lemma drawdown_step_nonneg {peak e : ℚ} (hpk : 0 < peak) :
    0 ≤ ((if peak < e then e else peak) - e) /
      (if peak < e then e else peak) * 100 := by
  have h1 : (0 : ℚ) ≤ (if peak < e then e else peak) - e :=
    sub_nonneg.mpr peak_step_ge
  have h2 : (0 : ℚ) ≤ if peak < e then e else peak := le_of_lt (peak_step_pos hpk)
  have := div_nonneg h1 h2
  linarith

lemma ddWalk_nonneg (eqs : List ℚ) :
    ∀ peak m : ℚ, 0 < peak → 0 ≤ m → 0 ≤ ddWalk peak m eqs := by
  induction eqs with
  | nil => intro peak m _ hm; exact hm
  | cons e rest ih =>
      intro peak m hpk hm
      rw [ddWalk_cons]
      exact ih _ _ (peak_step_pos hpk) (le_trans hm (le_max_left _ _))

lemma drawdown_step_eq_zero_iff {peak e : ℚ} (hpk : 0 < peak) :
    ((if peak < e then e else peak) - e) /
      (if peak < e then e else peak) * 100 = 0 ↔ peak ≤ e := by
  have hpk' : (0 : ℚ) < if peak < e then e else peak := peak_step_pos hpk
  constructor
  · intro h
    rcases mul_eq_zero.mp h with h' | h'
    · rcases div_eq_zero_iff.mp h' with h'' | h''
      · have : (if peak < e then e else peak) = e := by linarith [sub_eq_zero.mp h'']
        by_cases hc : peak < e
        · exact le_of_lt hc
        · rw [if_neg hc] at this; exact le_of_eq this
      · exact absurd h'' (ne_of_gt hpk')
    · norm_num at h'
  · intro h
    have : (if peak < e then e else peak) = e := by
      by_cases hc : peak < e
      · rw [if_pos hc]
      · rw [if_neg hc]; exact le_antisymm h (not_lt.mp hc)
    rw [this]
    simp

lemma peak_step_eq_of_le {peak e : ℚ} (h : peak ≤ e) :
    (if peak < e then e else peak) = e := by
  by_cases hc : peak < e
  · rw [if_pos hc]
  · rw [if_neg hc]; exact le_antisymm h (not_lt.mp hc)

lemma ddWalk_eq_zero_iff (eqs : List ℚ) :
    ∀ peak m : ℚ, 0 < peak → 0 ≤ m →
      (ddWalk peak m eqs = 0 ↔ m = 0 ∧ List.Chain (· ≤ ·) peak eqs) := by
  induction eqs with
  | nil =>
      intro peak m _ _
      simp [ddWalk]
  | cons e rest ih =>
      intro peak m hpk hm
      rw [ddWalk_cons, List.chain_cons]
      have hdd := drawdown_step_nonneg (e := e) hpk
      rw [ih _ _ (peak_step_pos hpk) (le_trans hm (le_max_left _ _))]
      have hmax : max m (((if peak < e then e else peak) - e) /
          (if peak < e then e else peak) * 100) = 0 ↔
          m = 0 ∧ peak ≤ e := by
        constructor
        · intro h0
          have hm0 : m = 0 :=
            le_antisymm (h0 ▸ le_max_left _ _) hm
          have hd0 := le_antisymm (h0 ▸ le_max_right _ _) hdd
          exact ⟨hm0, (drawdown_step_eq_zero_iff hpk).mp hd0⟩
        · rintro ⟨rfl, hpe⟩
          rw [(drawdown_step_eq_zero_iff hpk).mpr hpe]
          exact max_self 0
      constructor
      · rintro ⟨hmx, hch⟩
        obtain ⟨hm0, hpe⟩ := hmax.mp hmx
        refine ⟨hm0, hpe, ?_⟩
        rwa [peak_step_eq_of_le hpe] at hch
      · rintro ⟨hm0, hpe, hch⟩
        refine ⟨hmax.mpr ⟨hm0, hpe⟩, ?_⟩
        rwa [peak_step_eq_of_le hpe]

lemma calculate_max_drawdown_spec (c : ℚ) (trades : List Trade) (hc : 0 < c) :
    0 ≤ calculate_max_drawdown c trades ∧
    (calculate_max_drawdown c trades = 0 ↔
      List.Chain (· ≤ ·) c (equityCurveFrom c (trades.map Trade.profit))) := by
  unfold calculate_max_drawdown
  by_cases h : trades = []
  · subst h
    simp [equityCurveFrom]
  · rw [if_neg h]
    refine ⟨ddWalk_nonneg _ _ _ hc le_rfl, ?_⟩
    rw [ddWalk_eq_zero_iff _ _ _ hc le_rfl]
    simp

/-! Lemmas about the statistics module. -/

lemma closedOf_nil : closedOf [] = [] := rfl

lemma closedOf_eq_nil_of_all_open (trades : List Trade)
    (h : ∀ t ∈ trades, t.exit_date = none) : closedOf trades = [] := by
  apply List.filter_eq_nil_iff.mpr
  intro t ht
  simp [Trade.isClosed, h t ht]

lemma calculate_statistics_zero_of_no_closed (c fc : ℚ) (trades : List Trade)
    (h : closedOf trades = []) :
    calculate_statistics c trades fc = zeroReport := by
  unfold calculate_statistics
  by_cases ht : trades = []
  · rw [if_pos ht]
  · rw [if_neg ht, if_pos h]

lemma grossLossOf_of_no_losers (closed : List Trade)
    (h : losingOf closed = []) : grossLossOf closed = 1 := by
  simp [grossLossOf, h]

lemma profit_factor_of_no_losers (c fc : ℚ) (trades : List Trade)
    (hcl : closedOf trades ≠ []) (hlo : losingOf (closedOf trades) = []) :
    (calculate_statistics c trades fc).profit_factor =
      StatVal.fin (grossProfitOf (closedOf trades)) := by
  have htne : trades ≠ [] := by
    intro h
    exact hcl (h ▸ closedOf_nil)
  unfold calculate_statistics
  rw [if_neg htne, if_neg hcl]
  have hgl : grossLossOf (closedOf trades) = 1 := grossLossOf_of_no_losers _ hlo
  simp only [hgl]
  norm_num

/-! Lemmas about signal streams with no Enter signal. -/

lemma foldl_no_enter (strat : BaseStrategy) (c : ℚ) :
    ∀ rows : List Row, (∀ r ∈ rows, r.signal ≠ 1) →
      rows.foldl (processRow strat) ⟨0, c, [], 0⟩ = ⟨0, c, [], 0⟩ := by
  intro rows
  induction rows with
  | nil => intro _; rfl
  | cons r rs ih =>
      intro h
      have hr : processRow strat ⟨0, c, [], 0⟩ r = ⟨0, c, [], 0⟩ := by
        apply processRow_skip
        · rintro ⟨h1, _⟩
          exact h r (List.mem_cons_self r rs) h1
        · rintro ⟨_, h2⟩
          exact h2 rfl
      show List.foldl (processRow strat) (processRow strat ⟨0, c, [], 0⟩ r) rs =
        ⟨0, c, [], 0⟩
      rw [hr]
      exact ih (fun r' hr' => h r' (List.mem_cons_of_mem r hr'))

lemma simulate_no_enter (strat : BaseStrategy) (rows : List Row) (c : ℚ)
    (h : ∀ r ∈ rows, r.signal ≠ 1) :
    simulate strat rows c = ([], c) := by
  unfold simulate
  rw [foldl_no_enter strat c rows h]
  norm_num

/-! Claim theorems. -/

/-- Claim C1, counterexample. The claim states that for every non-empty bar
series every trade in the returned ledger has both exit fields set. The
position-sizing contract only requires a finite non-negative quantity, and a
sizer returning 0 is expressible (contract size 0): the Enter then appends an
open trade but leaves `position == 0`, so neither a later Exit nor the final
force-close (both guarded by `position != 0`) ever closes it, and the ledger
of this one-bar run keeps a trade with no exit fields. -/
theorem claim_C1_counterexample :
    ¬ (∀ t ∈ (simulate stratZeroSize [mkRow 0 100 1] 1000).1,
        t.exit_date.isSome ∧ t.exit_price.isSome) := by
  decide

/-- Claim C1 (amended): for every non-empty bar series, provided the
position-sizing function never returns 0, every trade appearing in the ledger
returned by the simulator has both exit fields set — an open position left
after the last bar is force-closed at the final bar's close by the same
update as the normal close branch. -/
theorem ledger_all_closed_of_sizer_ne_zero (strat : BaseStrategy)
    (rows : List Row) (c : ℚ) (hrows : rows ≠ [])
    (hsz : ∀ p, strat.get_position_size p ≠ 0) :
    ∀ t ∈ (simulate strat rows c).1,
      t.exit_date.isSome ∧ t.exit_price.isSome :=
  closedInv_simulate strat rows c hsz

/-- Claim C1 witness: in a run that ends with the force-close (Enter then
Hold) under a fixed-5-shares sizer, the ledger's entry is closed. -/
theorem ledger_all_closed_witness :
    ((simulate stratShares rowsForceClose 1000).1.getD 0 tradeDefault).exit_date.isSome ∧
    ((simulate stratShares rowsForceClose 1000).1.getD 0 tradeDefault).exit_price.isSome :=
  ledger_all_closed_of_sizer_ne_zero stratShares rowsForceClose 1000
    (by decide)
    (fun p => by norm_num [BaseStrategy.get_position_size, stratShares])
    ((simulate stratShares rowsForceClose 1000).1.getD 0 tradeDefault)
    (by norm_num [simulate, rowsForceClose, processRow, mkRow,
      BaseStrategy.get_position_size, stratShares, openTrade, setExit, updateLast,
      mZero])

/-- Claim C2, counterexample. The claim states that the simulator raises
`InvalidInputError` on an empty bar series or a non-positive initial capital.
No such exception class exists anywhere in the repository and `run_backtest`
performs no input validation: with an empty series and initial capital -5 it
returns a normal result — an empty ledger, the capital unchanged, and the
canonical zero report. -/
theorem claim_C2_counterexample :
    simulate stratPct [] (-5) = ([], -5) ∧
    ((BacktestEngine.mk0 (-5)).run_backtest [] stratPct "AAPL").2 = zeroReport := by
  constructor
  · rfl
  · rfl

/-- Claim C2 (amended): `run_backtest` performs no input validation and
defines no `InvalidInputError`; malformed inputs take the normal code path.
An empty bar series yields an empty ledger, an unchanged capital and the
canonical zero report, for every initial capital including non-positive ones;
a bars/signals length mismatch cannot arise because the signal column is
generated from the bar series itself. -/
theorem no_input_validation :
    (∀ (strat : BaseStrategy) (c : ℚ), simulate strat [] c = ([], c)) ∧
    (∀ (e : BacktestEngine) (strat : BaseStrategy) (ticker : String),
      (e.run_backtest [] strat ticker).2 = zeroReport) := by
  constructor
  · intro strat c; rfl
  · intro e strat ticker; rfl

/-- Claim C3, counterexample. The claim states that sizing at an honored
Enter uses the simulator's current capital (initial plus realized profits so
far). In the code `get_position_size` reads the strategy object's `capital`
attribute, which nothing ever updates: after a first round trip earning 100
(loop capital 1100), the second Enter at close 100 is sized to
1000 * 100% / 100 = 10 shares, while the spec's sizer at the current capital
1100 would give 11. -/
theorem claim_C3_counterexample :
    (simulate stratPct rowsFirstLeg 1000).2 = 1100 ∧
    spec_position_sizer stratPct 1100 100 = 11 ∧
    (simulate stratPct rowsRoundTrips 1000).1.map Trade.position = [10, 10] ∧
    (simulate stratPct rowsRoundTrips 1000).1.map Trade.position ≠ [10, 11] := by
  refine ⟨?_, ?_, ?_, ?_⟩ <;>
    norm_num [simulate, rowsFirstLeg, rowsRoundTrips, processRow, mkRow,
      BaseStrategy.get_position_size, stratPct, openTrade, setExit, updateLast,
      mZero, spec_position_sizer]

/-- Claim C3 (amended): at every honored Enter the quantity of the opened
position equals `get_position_size` applied to the bar's close price, a
formula reading the strategy's stored `capital` attribute — a value the
engine never updates, so sizing is based on the strategy's initial capital,
not on capital as mutated by prior trade closes. Every ledger entry satisfies
`position == get_position_size(entry_price)` for the unchanged strategy
object, and the code's sizer coincides with the spec's two-argument sizer
evaluated at that stored capital. -/
theorem position_sized_from_strategy_capital (strat : BaseStrategy)
    (rows : List Row) (c : ℚ) :
    (∀ t ∈ (simulate strat rows c).1,
      t.position = strat.get_position_size t.entry_price) ∧
    (∀ p, strat.get_position_size p = spec_position_sizer strat strat.capital p) :=
  ⟨(simulate_inv strat rows c).2.2, fun _ => rfl⟩

/-- Claim C3 witness: the first trade of the two-round-trip run is sized by
`get_position_size` at its own entry price. -/
theorem position_sized_witness :
    ((simulate stratPct rowsRoundTrips 1000).1.getD 0 tradeDefault).position =
      stratPct.get_position_size
        ((simulate stratPct rowsRoundTrips 1000).1.getD 0 tradeDefault).entry_price :=
  (position_sized_from_strategy_capital stratPct rowsRoundTrips 1000).1 _
    (by norm_num [simulate, rowsRoundTrips, processRow, mkRow,
      BaseStrategy.get_position_size, stratPct, openTrade, setExit, updateLast, mZero])

/-- Claim C4: every trade of a returned ledger that has an exit price has
`profit == (exit_price - entry_price) * position` exactly, and the returned
final capital is the initial capital plus the sum of the ledger's recorded
profits — each close (signal-driven or the end-of-series force-close) adds
exactly the trade's realized profit to capital. -/
theorem profit_exact_and_capital_additive (strat : BaseStrategy)
    (rows : List Row) (c : ℚ) :
    (∀ t ∈ (simulate strat rows c).1, ∀ p, t.exit_price = some p →
      t.profit = (p - t.entry_price) * t.position) ∧
    (simulate strat rows c).2 =
      c + (((simulate strat rows c).1).map Trade.profit).sum :=
  ⟨(simulate_inv strat rows c).2.1, (simulate_inv strat rows c).1⟩

/-- Claim C4 witness: in the force-closed run, the single trade's profit is
(120 - entry) * position and the final capital is 1000 plus the profit sum. -/
theorem profit_exact_witness :
    ((simulate stratPct rowsForceClose 1000).1.getD 0 tradeDefault).profit =
      (120 -
        ((simulate stratPct rowsForceClose 1000).1.getD 0 tradeDefault).entry_price) *
        ((simulate stratPct rowsForceClose 1000).1.getD 0 tradeDefault).position ∧
    (simulate stratPct rowsForceClose 1000).2 =
      1000 + (((simulate stratPct rowsForceClose 1000).1).map Trade.profit).sum :=
  ⟨(profit_exact_and_capital_additive stratPct rowsForceClose 1000).1 _
      (by norm_num [simulate, rowsForceClose, processRow, mkRow,
        BaseStrategy.get_position_size, stratPct, openTrade, setExit, updateLast,
        mZero])
      120
      (by norm_num [simulate, rowsForceClose, processRow, mkRow,
        BaseStrategy.get_position_size, stratPct, openTrade, setExit, updateLast,
        mZero]),
    (profit_exact_and_capital_additive stratPct rowsForceClose 1000).2⟩

lemma profit_factor_inf_of_zero_loss (c fc : ℚ) (trades : List Trade)
    (hcl : closedOf trades ≠ []) (hgl : grossLossOf (closedOf trades) = 0) :
    (calculate_statistics c trades fc).profit_factor = StatVal.inf := by
  have htne : trades ≠ [] := by
    intro h
    exact hcl (h ▸ closedOf_nil)
  unfold calculate_statistics
  rw [if_neg htne, if_neg hcl]
  dsimp only
  rw [if_neg (not_not_intro hgl)]

lemma win_rate_eq (c fc : ℚ) (trades : List Trade)
    (hcl : closedOf trades ≠ []) :
    (calculate_statistics c trades fc).win_rate =
      ((winningOf (closedOf trades)).length : ℚ) /
        ((closedOf trades).length : ℚ) * 100 := by
  have htne : trades ≠ [] := by
    intro h
    exact hcl (h ▸ closedOf_nil)
  unfold calculate_statistics
  rw [if_neg htne, if_neg hcl]
  dsimp only
  rw [if_pos hcl]

/-- Claim C5: on a ledger with no closed trade (in particular an empty one),
`_calculate_statistics` returns the canonical all-zero report, never raises,
and — being a pure function of its arguments in this embedding — returns the
identical report on repeated calls. -/
theorem no_closed_trades_zero_report (c fc : ℚ) (trades : List Trade)
    (h : ∀ t ∈ trades, t.exit_date = none) :
    calculate_statistics c trades fc = zeroReport ∧
    calculate_statistics c trades fc = calculate_statistics c trades fc :=
  ⟨calculate_statistics_zero_of_no_closed c fc trades
      (closedOf_eq_nil_of_all_open trades h), rfl⟩

/-- Claim C5 witness: the empty ledger and a one-open-trade ledger both give
the zero report. -/
theorem no_closed_trades_witness :
    calculate_statistics 7 ([] : List Trade) 9 = zeroReport ∧
    calculate_statistics 7 openOnlyLedger 9 = zeroReport :=
  ⟨(no_closed_trades_zero_report 7 9 [] (by simp)).1,
    (no_closed_trades_zero_report 7 9 openOnlyLedger
      (by simp [openOnlyLedger])).1⟩

/-- Claim C6, counterexample. The claim states profit_factor is never
infinity once closed trades exist. A single closed break-even trade (profit
exactly 0) counts as a losing trade (`profit <= 0`), so `losing_trades` is
non-empty, `gross_loss = abs(0) = 0` — the `else 1` convention does not apply
— and the code returns `float('inf')` for profit_factor. -/
theorem claim_C6_counterexample :
    losingOf (closedOf [tradeBreakEven]) ≠ [] ∧
    grossLossOf (closedOf [tradeBreakEven]) = 0 ∧
    (calculate_statistics 1000 [tradeBreakEven] 1000).profit_factor =
      StatVal.inf := by
  have h1 : losingOf (closedOf [tradeBreakEven]) ≠ [] := by
    norm_num [losingOf, closedOf, Trade.isClosed, tradeBreakEven]
  have h2 : grossLossOf (closedOf [tradeBreakEven]) = 0 := by
    norm_num [grossLossOf, losingOf, closedOf, Trade.isClosed, tradeBreakEven]
  refine ⟨h1, h2, profit_factor_inf_of_zero_loss 1000 1000 [tradeBreakEven] ?_ h2⟩
  norm_num [closedOf, Trade.isClosed, tradeBreakEven]

/-- Claim C6 (amended): when closed trades exist and there are zero losing
trades (profit <= 0), `gross_loss` is 1 and profit_factor is the finite value
`gross_profit / 1 = gross_profit`; Scenario D (two winners +50 and +100)
gives profit_factor 150 and win_rate 100. When losing trades do exist but
their profits sum to 0, profit_factor is infinity instead (see the
counterexample). -/
theorem gross_loss_convention :
    (∀ (c fc : ℚ) (trades : List Trade), closedOf trades ≠ [] →
      losingOf (closedOf trades) = [] →
      grossLossOf (closedOf trades) = 1 ∧
      (calculate_statistics c trades fc).profit_factor =
        StatVal.fin (grossProfitOf (closedOf trades))) ∧
    (calculate_statistics 1000 ledgerD 1150).profit_factor = StatVal.fin 150 ∧
    (calculate_statistics 1000 ledgerD 1150).win_rate = 100 := by
  have hcl : closedOf ledgerD = ledgerD := by
    norm_num [closedOf, Trade.isClosed, ledgerD, closedWith]
  have hclne : closedOf ledgerD ≠ [] := by
    rw [hcl]
    unfold ledgerD
    exact List.cons_ne_nil _ _
  have hlo : losingOf (closedOf ledgerD) = [] := by
    rw [hcl]; norm_num [losingOf, ledgerD, closedWith]
  have hgp : grossProfitOf (closedOf ledgerD) = 150 := by
    rw [hcl]; norm_num [grossProfitOf, winningOf, ledgerD, closedWith]
  refine ⟨fun c fc trades hcl' hlo' =>
    ⟨grossLossOf_of_no_losers _ hlo', profit_factor_of_no_losers c fc trades hcl' hlo'⟩,
    ?_, ?_⟩
  · rw [profit_factor_of_no_losers 1000 1150 ledgerD hclne hlo, hgp]
  · rw [win_rate_eq 1000 1150 ledgerD hclne, hcl]
    norm_num [winningOf, ledgerD, closedWith]

/-- Claim C6 witness: the general no-losing-trades statement applied to
Scenario D's ledger. -/
theorem gross_loss_convention_witness :
    grossLossOf (closedOf ledgerD) = 1 ∧
    (calculate_statistics 1000 ledgerD 1150).profit_factor =
      StatVal.fin (grossProfitOf (closedOf ledgerD)) :=
  gross_loss_convention.1 1000 1150 ledgerD
    (by
      have hcl : closedOf ledgerD = ledgerD := by
        norm_num [closedOf, Trade.isClosed, ledgerD, closedWith]
      rw [hcl]
      unfold ledgerD
      exact List.cons_ne_nil _ _)
    (by norm_num [losingOf, closedOf, Trade.isClosed, ledgerD, closedWith])

/-- Claim C7: `_calculate_max_drawdown` walks the equity curve (one point per
trade, running profit total) with a running peak starting at the initial
capital and drawdown `(peak - equity) / peak * 100`; for every ledger and
positive initial capital the result is non-negative, and it is 0 exactly when
the equity sequence, starting from the initial capital, is non-decreasing
throughout (it returns 0 for an empty ledger by definition). -/
theorem max_drawdown_nonneg_and_zero_iff_monotone (c : ℚ) (trades : List Trade)
    (hc : 0 < c) :
    0 ≤ calculate_max_drawdown c trades ∧
    (calculate_max_drawdown c trades = 0 ↔
      List.Chain (· ≤ ·) c (equityCurveFrom c (trades.map Trade.profit))) :=
  calculate_max_drawdown_spec c trades hc

/-- Claim C7 witness: the drawdown properties at Scenario E's ledger
(equity 1100, 900, 1200 from capital 1000). -/
theorem max_drawdown_witness :
    0 ≤ calculate_max_drawdown 1000 ledgerE ∧
    (calculate_max_drawdown 1000 ledgerE = 0 ↔
      List.Chain (· ≤ ·) 1000 (equityCurveFrom 1000 (ledgerE.map Trade.profit))) :=
  max_drawdown_nonneg_and_zero_iff_monotone 1000 ledgerE (by norm_num)

/-- Claim C8: an Enter while a position is open is a no-op (the whole loop
state is unchanged), an Exit while flat is a no-op, a step never rewrites the
entry fields (entry date, entry price, position size, entry metrics) of
existing ledger entries — it at most appends a new one — and at every
reachable loop state the position is 0 or exactly the most recently sized
quantity (`get_position_size` at the stored entry price). At most one
position exists at any time because the state carries a single scalar
`position`. -/
theorem enter_while_open_noop :
    (∀ (strat : BaseStrategy) (st : LoopState) (row : Row),
      row.signal = 1 → st.position ≠ 0 → processRow strat st row = st) ∧
    (∀ (strat : BaseStrategy) (st : LoopState) (row : Row),
      row.signal = -1 → st.position = 0 → processRow strat st row = st) ∧
    (∀ (strat : BaseStrategy) (st : LoopState) (row : Row),
      (processRow strat st row).trades.map entryData = st.trades.map entryData ∨
      ∃ e, (processRow strat st row).trades.map entryData =
        st.trades.map entryData ++ [e]) ∧
    (∀ (strat : BaseStrategy) (rows : List Row) (c : ℚ),
      (rows.foldl (processRow strat) ⟨0, c, [], 0⟩).position = 0 ∨
      (rows.foldl (processRow strat) ⟨0, c, [], 0⟩).position =
        strat.get_position_size
          (rows.foldl (processRow strat) ⟨0, c, [], 0⟩).entry_price) := by
  refine ⟨?_, ?_, ?_, ?_⟩
  · intro strat st row h1 hp
    apply processRow_skip
    · rintro ⟨_, h0⟩
      exact hp h0
    · rintro ⟨hm, _⟩
      rw [h1] at hm
      norm_num at hm
  · intro strat st row h1 h0
    apply processRow_skip
    · rintro ⟨hm, _⟩
      rw [h1] at hm
      norm_num at hm
    · rintro ⟨_, hp⟩
      exact hp h0
  · intro strat st row
    by_cases h1 : row.signal = 1 ∧ st.position = 0
    · right
      rw [processRow_enter strat st row h1]
      exact ⟨entryData (openTrade row (strat.get_position_size row.close)), by simp⟩
    · by_cases h2 : row.signal = -1 ∧ st.position ≠ 0
      · left
        rw [processRow_exit strat st row h1 h2]
        show (updateLast
            (setExit row.date row.close ((row.close - st.entry_price) * st.position)
              row.metrics) st.trades).map entryData = st.trades.map entryData
        exact map_updateLast
          (setExit row.date row.close ((row.close - st.entry_price) * st.position)
            row.metrics) entryData (fun x => rfl) st.trades
      · left
        rw [processRow_skip strat st row h1 h2]
  · intro strat rows c
    obtain ⟨_, _, hsize, hopen⟩ := simInv_foldl strat c rows
    by_cases h0 : (rows.foldl (processRow strat) ⟨0, c, [], 0⟩).position = 0
    · exact Or.inl h0
    · right
      obtain ⟨pre, lastT, htr, hep, hpos, _, _⟩ := hopen h0
      have hm : lastT ∈ (rows.foldl (processRow strat) ⟨0, c, [], 0⟩).trades := by
        rw [htr]
        exact List.mem_append.mpr (Or.inr (List.mem_singleton.mpr rfl))
      have hs := hsize lastT hm
      rw [← hpos, hs, hep]

/-- Claim C8 witness: an Enter against an open 5-share position and an Exit
while flat both leave the concrete loop state unchanged. -/
theorem enter_while_open_noop_witness :
    processRow stratShares ⟨5, 1000, [], 100⟩ (mkRow 7 50 1) =
      (⟨5, 1000, [], 100⟩ : LoopState) ∧
    processRow stratShares ⟨0, 1000, [], 0⟩ (mkRow 7 50 (-1)) =
      (⟨0, 1000, [], 0⟩ : LoopState) :=
  ⟨enter_while_open_noop.1 stratShares ⟨5, 1000, [], 100⟩ (mkRow 7 50 1) rfl
      (by norm_num : (5 : ℚ) ≠ 0),
    enter_while_open_noop.2.1 stratShares ⟨0, 1000, [], 0⟩ (mkRow 7 50 (-1)) rfl rfl⟩

/-- Claim C9: a signal stream with no Enter signal yields an empty ledger and
a final capital equal to the initial capital, and the report returned by
`run_backtest` is the canonical zero report. -/
theorem no_enter_signals_empty_ledger (strat : BaseStrategy) (rows : List Row)
    (e : BacktestEngine) (ticker : String)
    (h : ∀ r ∈ rows, r.signal ≠ 1) :
    (∀ c : ℚ, simulate strat rows c = ([], c)) ∧
    (e.run_backtest rows strat ticker).2 = zeroReport := by
  have hs : ∀ c : ℚ, simulate strat rows c = ([], c) :=
    fun c => simulate_no_enter strat rows c h
  refine ⟨hs, ?_⟩
  show calculate_statistics e.initial_capital
      (simulate strat rows e.initial_capital).1
      (simulate strat rows e.initial_capital).2 = zeroReport
  rw [hs e.initial_capital]
  exact calculate_statistics_zero_of_no_closed _ _ _ rfl

/-- Claim C9 witness: three Hold bars give an empty ledger, unchanged capital
1000 and the zero report. -/
theorem no_enter_signals_witness :
    simulate stratPct rowsAllHold 1000 = ([], 1000) ∧
    ((BacktestEngine.mk0 1000).run_backtest rowsAllHold stratPct "AAPL").2 =
      zeroReport :=
  ⟨(no_enter_signals_empty_ledger stratPct rowsAllHold (BacktestEngine.mk0 1000)
      "AAPL" (by decide)).1 1000,
    (no_enter_signals_empty_ledger stratPct rowsAllHold (BacktestEngine.mk0 1000)
      "AAPL" (by decide)).2⟩

/-- Claim C10: on a freshly constructed engine, `get_trade_details` returns
the empty list for every (ticker, strategy-name) key rather than failing; and
after `run_backtest`, the ledger stored under the run's key is exactly the
run's ledger, replacing whatever any earlier run had stored there (the
starting engine is arbitrary). -/
theorem trade_details_default_and_replace :
    (∀ (c : ℚ) (ticker strategy_name : String),
      (BacktestEngine.mk0 c).get_trade_details ticker strategy_name = []) ∧
    (∀ (e : BacktestEngine) (rows : List Row) (strat : BaseStrategy)
      (ticker : String),
      ((e.run_backtest rows strat ticker).1).get_trade_details ticker strat.name =
        (simulate strat rows e.initial_capital).1) := by
  constructor
  · intro c ticker strategy_name
    rfl
  · intro e rows strat ticker
    show Function.update e.trade_details (ticker, strat.name)
        (simulate strat rows e.initial_capital).1 (ticker, strat.name) =
      (simulate strat rows e.initial_capital).1
    simp
